import Mathlib

/-!
Verification of the MineSweeper core from Bunch-of-cells/MineSweeper (src/main.rs).

Shallow embedding conventions:
- Randomness (the per-tile Bernoulli trials of `new` and `reset`) is passed in as an
  explicit `List Bool` of samples.
- `Instant` is a `Nat` timestamp, `Duration` a `Nat`; `start.elapsed()` evaluated at
  time `now` is `now - start` (the clock is monotone, so `now ≥ start`).
- A Rust index-out-of-bounds panic is modelled by `Option.none`: every operation that
  indexes the tile vector returns `Option MineSweeper`.
- The `minecount` shown by `draw` is `self.mines - flagged_count` on `usize`; we model
  the release-build wrapping subtraction explicitly modulo `2 ^ 64`.
- The coffee presentation layer (window, fonts, mouse plumbing, pixel-to-tile
  translation) is out of scope; a player action carries its tile index directly.
  In `interact` the game dispatches on the current phase first, and a button that the
  current phase does not handle falls into a wildcard arm that leaves the state
  untouched; the `MSAction` type mirrors the five abstract actions.
-/

inductive GameState where
  | running : GameState
  | lose : GameState
  | win : GameState
  | menu : GameState
deriving DecidableEq

/-- One cell of the grid, as in `struct Tile`: mine flag, precomputed neighbour-mine
count (`u8` in the source, always between 0 and 8), revealed flag, flagged flag. -/
structure Tile where
  mine : Bool
  neighbours : Nat
  revealed : Bool
  flagged : Bool
deriving DecidableEq

/-- The tri-state stopwatch, as in `enum Timer`. -/
inductive Timer where
  | none : Timer
  | ticking (start : Nat) : Timer
  | stopped (duration : Nat) : Timer
deriving DecidableEq

/-- `Timer::get_time`: `None` while idle, live elapsed time while ticking, the captured
duration once stopped. -/
def Timer.get_time (t : Timer) (now : Nat) : Option Nat :=
  match t with
  | Timer.none => Option.none
  | Timer.ticking s => some (now - s)
  | Timer.stopped d => some d

/-- `Timer::stop`: captures the elapsed time when ticking, otherwise does nothing. -/
def Timer.stop (t : Timer) (now : Nat) : Timer :=
  match t with
  | Timer.ticking s => Timer.stopped (now - s)
  | t => t

/-- The game object, as in `struct MineSweeper` (the `Bernoulli` distribution field is
replaced by the explicit sample lists passed to `new` / `reset`). -/
structure MineSweeper where
  tiles : List Tile
  state : GameState
  timer : Timer
  height : Nat
  width : Nat
  tile_size : Nat
  mines : Nat
deriving DecidableEq

/-- The loop offsets of `MineSweeper::neighbours`: `vertical` runs -1..=1 outer,
`horizontal` -1..=1 inner, with `(0, 0)` skipped by the first `continue`. -/
def offsets : List (Int × Int) :=
  [(-1, -1), (-1, 0), (-1, 1), (0, -1), (0, 1), (1, -1), (1, 0), (1, 1)]

/-- `MineSweeper::neighbours`, verbatim: `col = tile / height`, `row = tile % width`,
the four edge guards `continue`, and the push of `new_col * height + new_row`.
The guards ensure `col + vertical` and `row + horizontal` are never negative when
reached, so `Int.toNat` coincides with the source's `as usize` cast. -/
def neighbours (height width tile : Nat) : List Nat :=
  let col := tile / height
  let row := tile % width
  (offsets.filter fun vh =>
      !((row == 0 && vh.2 == -1) || (col == 0 && vh.1 == -1) ||
        (row == width - 1 && vh.2 == 1) || (col == height - 1 && vh.1 == 1))).map
    fun vh => ((col : Int) + vh.1).toNat * height + ((row : Int) + vh.2).toNat

/-- Reading `xs[i]` through `p`, with `false` on an out-of-range index; used only to
state specifications (the executable code paths use `countAt` and `List.any`). -/
def probe (p : α → Bool) (xs : List α) (i : Nat) : Bool :=
  match xs[i]? with
  | some x => p x
  | Option.none => false

/-- Model of `indices.iter().filter(|i| p(xs[**i])).count()`: counts the hits of `p`
through the index list, propagating the panic (`Option.none`) of an out-of-range
index. -/
def countAt (p : α → Bool) (xs : List α) : List Nat → Option Nat
  | [] => some 0
  | i :: rest =>
    match xs[i]? with
    | Option.none => Option.none
    | some x => (countAt p xs rest).map fun c => if p x then c + 1 else c

/-- The win test of the reveal branch:
`self.tiles.iter().filter(|t| !t.mine).all(|t| t.revealed)`. -/
def allNonMineRevealed (tiles : List Tile) : Bool :=
  (tiles.filter fun t => !t.mine).all Tile.revealed

/-- The effect of one chord-loop iteration on the tile it visits: a flagged neighbour
is skipped, an unflagged mine is left as is (only the phase changes), an unflagged
non-mine is marked revealed. -/
def revealIfSafe (t : Tile) : Tile :=
  if !t.flagged && !t.mine then { t with revealed := true } else t

/-- An unflagged mine: visiting it during a chord makes the game transition to lose. -/
def mineTrap (t : Tile) : Bool := !t.flagged && t.mine

/-- The immutable part of a tile: its mine flag and its adjacency count. -/
def tileSig (t : Tile) : Bool × Nat := (t.mine, t.neighbours)

/-- The `for neighbour in n` loop of the chord branch: flagged neighbours are skipped,
an unflagged mine sets the state to lose and stops the timer, an unflagged non-mine is
marked revealed. `Option.none` models the panic of indexing out of range. -/
def chordLoop (now : Nat) : List Nat → List Tile → GameState → Timer →
    Option (List Tile × GameState × Timer)
  | [], tiles, st, tm => some (tiles, st, tm)
  | i :: rest, tiles, st, tm =>
    match tiles[i]? with
    | Option.none => Option.none
    | some t =>
      if t.flagged then chordLoop now rest tiles st tm
      else if t.mine then chordLoop now rest tiles GameState.lose (tm.stop now)
      else chordLoop now rest (tiles.set i { t with revealed := true }) st tm

/-- The left-click branch of `interact` while running: on an unrevealed, unflagged
tile, a mine loses the game (the tile itself is not mutated), otherwise the tile is
marked revealed and the all-non-mines-revealed test may win the game. Any other tile
is a no-op. -/
def revealAct (s : MineSweeper) (tile now : Nat) : Option MineSweeper :=
  match s.tiles[tile]? with
  | Option.none => Option.none
  | some t =>
    if !t.revealed && !t.flagged then
      if t.mine then
        some { s with state := GameState.lose, timer := s.timer.stop now }
      else
        let tiles := s.tiles.set tile { t with revealed := true }
        if allNonMineRevealed tiles then
          some { s with tiles := tiles, state := GameState.win, timer := s.timer.stop now }
        else
          some { s with tiles := tiles }
    else some s

/-- The right-click branch of `interact` while running: flip `flagged` on an
unrevealed tile, no-op on a revealed one. -/
def toggleAct (s : MineSweeper) (tile : Nat) : Option MineSweeper :=
  match s.tiles[tile]? with
  | Option.none => Option.none
  | some t =>
    if !t.revealed then
      some { s with tiles := s.tiles.set tile { t with flagged := !t.flagged } }
    else some s

/-- The middle-click branch of `interact` while running: on a revealed, unflagged,
non-mine tile, count the flagged neighbours; when the count equals the tile's
adjacency count run the chord loop, otherwise no-op. Any other tile is a no-op. -/
def chordAct (s : MineSweeper) (tile now : Nat) : Option MineSweeper :=
  match s.tiles[tile]? with
  | Option.none => Option.none
  | some t =>
    if t.revealed && !t.flagged && !t.mine then
      match countAt Tile.flagged s.tiles (neighbours s.height s.width tile) with
      | Option.none => Option.none
      | some c =>
        if t.neighbours = c then
          match chordLoop now (neighbours s.height s.width tile) s.tiles s.state s.timer with
          | Option.none => Option.none
          | some (tiles, st, tm) => some { s with tiles := tiles, state := st, timer := tm }
        else some s
    else some s

/-- The tile-building pass shared by `new` and `reset`, over an explicit list of tile
indices: each index gets its Bernoulli sample as `mine` and the count of mines among
its `neighbours` as its adjacency count (the source computes the counts in a second
in-place pass, which only ever writes the `neighbours` field, so building the final
tile directly is equivalent). -/
def genList (height width : Nat) (mines : List Bool) : List Nat → Option (List Tile)
  | [] => some []
  | t :: rest =>
    match mines[t]?, countAt id mines (neighbours height width t),
        genList height width mines rest with
    | some m, some c, some tl =>
      some ({ mine := m, neighbours := c, revealed := false, flagged := false } :: tl)
    | _, _, _ => Option.none

/-- Board generation over the `height * width` tile indices. -/
def generate (height width : Nat) (mines : List Bool) : Option (List Tile) :=
  genList height width mines (List.range (height * width))

/-- `MineSweeper::new`: divides the pixel dimensions by the tile size, generates the
grid from the Bernoulli samples `mines`, counts the mines, and starts in the menu with
an idle timer. -/
def MineSweeper.new (tile_size height width : Nat) (mines : List Bool) :
    Option MineSweeper :=
  let height := height / tile_size
  let width := width / tile_size
  (generate height width mines).map fun tiles =>
    { tiles := tiles
      state := GameState.menu
      timer := Timer.none
      height := height
      width := width
      tile_size := tile_size
      mines := (tiles.filter Tile.mine).length }

/-- `MineSweeper::reset`: regenerates the grid from fresh samples, recounts the mines,
resets the timer to idle and the state to the menu; dimensions are kept. -/
def resetAct (s : MineSweeper) (fresh : List Bool) : Option MineSweeper :=
  (generate s.height s.width fresh).map fun tiles =>
    { s with
      mines := (tiles.filter Tile.mine).length
      tiles := tiles
      timer := Timer.none
      state := GameState.menu }

/-- The five abstract player actions of the core. -/
inductive MSAction where
  | reveal (tile : Nat) : MSAction
  | toggleFlag (tile : Nat) : MSAction
  | chord (tile : Nat) : MSAction
  | start : MSAction
  | reset : MSAction
deriving DecidableEq

/-- `MineSweeper::interact`: dispatch on the phase first; while running, left click is
reveal, right click is toggle-flag, middle click is chord; in the menu, middle click
starts the game and the timer; in lose or win, middle click resets. Every other
combination falls through and leaves the state untouched. -/
def interact (s : MineSweeper) (a : MSAction) (now : Nat) (fresh : List Bool) :
    Option MineSweeper :=
  match s.state with
  | GameState.running =>
    match a with
    | MSAction.reveal tile => revealAct s tile now
    | MSAction.toggleFlag tile => toggleAct s tile
    | MSAction.chord tile => chordAct s tile now
    | _ => some s
  | GameState.lose | GameState.win =>
    match a with
    | MSAction.reset => resetAct s fresh
    | _ => some s
  | GameState.menu =>
    match a with
    | MSAction.start =>
      some { s with state := GameState.running, timer := Timer.ticking now }
    | _ => some s

/-- The width of `usize` values on the 64-bit targets the game builds for. -/
def USIZE : Nat := 2 ^ 64

/-- The remaining-mine count computed by `draw`:
`self.mines - self.tiles.iter().filter(|t| t.flagged).count()` on `usize`; the
release-build wrapping subtraction is modelled modulo `2 ^ 64` (a debug build panics
on the same underflow). -/
def minecount (s : MineSweeper) : Nat :=
  (s.mines + USIZE - (s.tiles.filter Tile.flagged).length) % USIZE

/-- The states the game can be in: a freshly constructed board, or the result of any
interaction on a reachable state. -/
inductive Reachable : MineSweeper → Prop where
  | init (tile_size height width : Nat) (mines : List Bool) (s : MineSweeper) :
      MineSweeper.new tile_size height width mines = some s → Reachable s
  | step (s s' : MineSweeper) (a : MSAction) (now : Nat) (fresh : List Bool) :
      Reachable s → interact s a now fresh = some s' → Reachable s'

theorem Timer.stop_stop (tm : Timer) (now : Nat) :
    (tm.stop now).stop now = tm.stop now := by
  cases tm <;> rfl

theorem Timer.stop_ticking (t0 now : Nat) :
    (Timer.ticking t0).stop now = Timer.stopped (now - t0) := rfl

theorem revealIfSafe_of_flagged {t : Tile} (h : t.flagged = true) :
    revealIfSafe t = t := by
  simp [revealIfSafe, h]

theorem revealIfSafe_of_mine {t : Tile} (h : t.mine = true) :
    revealIfSafe t = t := by
  simp [revealIfSafe, h]

theorem revealIfSafe_of_safe {t : Tile} (hf : t.flagged = false) (hm : t.mine = false) :
    revealIfSafe t = { t with revealed := true } := by
  simp [revealIfSafe, hf, hm]

theorem revealIfSafe_idem (t : Tile) :
    revealIfSafe (revealIfSafe t) = revealIfSafe t := by
  cases t with
  | mk m n r f => cases m <;> cases f <;> simp [revealIfSafe]

theorem tileSig_revealIfSafe (t : Tile) : tileSig (revealIfSafe t) = tileSig t := by
  cases t with
  | mk m n r f => cases m <;> cases f <;> simp [revealIfSafe, tileSig]

theorem mineTrap_revealIfSafe (t : Tile) : mineTrap (revealIfSafe t) = mineTrap t := by
  cases t with
  | mk m n r f => cases m <;> cases f <;> simp [revealIfSafe, mineTrap]

theorem probe_eq_true_iff (p : α → Bool) (xs : List α) (i : Nat) :
    probe p xs i = true ↔ ∃ x, xs[i]? = some x ∧ p x = true := by
  unfold probe
  cases h : xs[i]? <;> simp

theorem probe_pos {p : α → Bool} {xs : List α} {i : Nat} {x : α}
    (h : xs[i]? = some x) : probe p xs i = p x := by
  unfold probe
  rw [h]

theorem anyCongr {f g : α → Bool} : ∀ {l : List α},
    (∀ x ∈ l, f x = g x) → l.any f = l.any g
  | [], _ => rfl
  | a :: l, h => by
    simp only [List.any_cons]
    rw [h a (by simp), anyCongr fun x hx => h x (by simp [hx])]

theorem countAt_ranges {p : α → Bool} {xs : List α} :
    ∀ {l : List Nat} {c : Nat}, countAt p xs l = some c → ∀ i ∈ l, i < xs.length := by
  intro l
  induction l with
  | nil => intro c _ i hi; cases hi
  | cons a l ih =>
    intro c hc i hi
    unfold countAt at hc
    cases ha : xs[a]? with
    | none => rw [ha] at hc; cases hc
    | some x =>
      rw [ha] at hc
      cases hrest : countAt p xs l with
      | none => rw [hrest] at hc; cases hc
      | some c' =>
        rcases List.mem_cons.mp hi with rfl | hi'
        · exact (List.getElem?_eq_some_iff.mp ha).1
        · exact ih hrest i hi'

theorem countAt_eq {p : α → Bool} {xs : List α} :
    ∀ {l : List Nat}, (∀ i ∈ l, i < xs.length) →
      countAt p xs l = some ((l.filter (probe p xs)).length) := by
  intro l
  induction l with
  | nil => intro _; rfl
  | cons a l ih =>
    intro h
    have ha : a < xs.length := h a (by simp)
    have hx : xs[a]? = some xs[a] := List.getElem?_eq_getElem ha
    have hrest := ih fun i hi => h i (by simp [hi])
    unfold countAt
    rw [hx, hrest, List.filter_cons, probe_pos hx]
    cases hpa : p xs[a] <;> simp [hpa]

theorem memSetCases {a b : α} {l : List α} {i : Nat} (h : a ∈ l.set i b) :
    a ∈ l ∨ a = b := List.mem_or_eq_of_mem_set h

theorem mapSetSame (f : α → β) (l : List α) (i : Nat) (a : α)
    (h : ∀ x, l[i]? = some x → f a = f x) : (l.set i a).map f = l.map f := by
  rcases Nat.lt_or_ge i l.length with hi | hi
  · rw [List.map_set]
    apply List.ext_getElem?
    intro j
    rcases Decidable.em (i = j) with rfl | hne
    · rw [List.getElem?_set_self (by simpa using hi)]
      rw [List.getElem?_map, List.getElem?_eq_getElem hi]
      rw [h l[i] (List.getElem?_eq_getElem hi)]
      rfl
    · exact List.getElem?_set_ne hne
  · rw [List.set_eq_of_length_le hi]

/-- No tile is simultaneously revealed and flagged. -/
def NoRF (tiles : List Tile) : Prop :=
  ∀ t ∈ tiles, ¬(t.revealed = true ∧ t.flagged = true)

theorem getElem?_set_split (l : List α) (i j : Nat) (a : α) (hi : i < l.length) :
    (l.set i a)[j]? = if j = i then some a else l[j]? := by
  rcases Decidable.em (j = i) with rfl | hne
  · simp [List.getElem?_set_self (by simpa using hi)]
  · simp [List.getElem?_set_ne fun h => hne h.symm, hne]

theorem chordLoop_cons_flagged {tiles : List Tile} {i : Nat} {t : Tile}
    (ht : tiles[i]? = some t) (hf : t.flagged = true) (now : Nat) (rest : List Nat)
    (st : GameState) (tm : Timer) :
    chordLoop now (i :: rest) tiles st tm = chordLoop now rest tiles st tm := by
  conv_lhs => rw [chordLoop]
  rw [ht]
  simp [hf]

theorem chordLoop_cons_mine {tiles : List Tile} {i : Nat} {t : Tile}
    (ht : tiles[i]? = some t) (hf : t.flagged = false) (hm : t.mine = true)
    (now : Nat) (rest : List Nat) (st : GameState) (tm : Timer) :
    chordLoop now (i :: rest) tiles st tm =
      chordLoop now rest tiles GameState.lose (tm.stop now) := by
  conv_lhs => rw [chordLoop]
  rw [ht]
  simp [hf, hm]

theorem chordLoop_cons_safe {tiles : List Tile} {i : Nat} {t : Tile}
    (ht : tiles[i]? = some t) (hf : t.flagged = false) (hm : t.mine = false)
    (now : Nat) (rest : List Nat) (st : GameState) (tm : Timer) :
    chordLoop now (i :: rest) tiles st tm =
      chordLoop now rest (tiles.set i { t with revealed := true }) st tm := by
  conv_lhs => rw [chordLoop]
  rw [ht]
  simp [hf, hm]

theorem chordLoop_states (now : Nat) :
    ∀ (n : List Nat) (tiles : List Tile) (st : GameState) (tm : Timer)
      (res : List Tile × GameState × Timer),
      chordLoop now n tiles st tm = some res →
      res.2.1 = st ∨ res.2.1 = GameState.lose := by
  intro n
  induction n with
  | nil =>
    intro tiles st tm res h
    cases h
    exact Or.inl rfl
  | cons i rest ih =>
    intro tiles st tm res h
    cases ht : tiles[i]? with
    | none =>
      unfold chordLoop at h
      rw [ht] at h
      cases h
    | some t =>
      cases hf : t.flagged with
      | true =>
        rw [chordLoop_cons_flagged ht hf] at h
        exact ih _ _ _ _ h
      | false =>
        cases hm : t.mine with
        | true =>
          rw [chordLoop_cons_mine ht hf hm] at h
          rcases ih _ _ _ _ h with h1 | h1 <;> exact Or.inr h1
        | false =>
          rw [chordLoop_cons_safe ht hf hm] at h
          exact ih _ _ _ _ h

theorem chordLoop_norf (now : Nat) :
    ∀ (n : List Nat) (tiles : List Tile) (st : GameState) (tm : Timer)
      (res : List Tile × GameState × Timer),
      chordLoop now n tiles st tm = some res → NoRF tiles → NoRF res.1 := by
  intro n
  induction n with
  | nil =>
    intro tiles st tm res h hn
    cases h
    exact hn
  | cons i rest ih =>
    intro tiles st tm res h hn
    cases ht : tiles[i]? with
    | none =>
      unfold chordLoop at h
      rw [ht] at h
      cases h
    | some t =>
      cases hf : t.flagged with
      | true =>
        rw [chordLoop_cons_flagged ht hf] at h
        exact ih _ _ _ _ h hn
      | false =>
        cases hm : t.mine with
        | true =>
          rw [chordLoop_cons_mine ht hf hm] at h
          exact ih _ _ _ _ h hn
        | false =>
          rw [chordLoop_cons_safe ht hf hm] at h
          refine ih _ _ _ _ h ?_
          intro u hu
          rcases memSetCases hu with h1 | rfl
          · exact hn u h1
          · intro hc
            rw [show ({ t with revealed := true } : Tile).flagged = t.flagged from rfl, hf]
              at hc
            exact Bool.false_ne_true hc.2

theorem chordLoop_sig (now : Nat) :
    ∀ (n : List Nat) (tiles : List Tile) (st : GameState) (tm : Timer)
      (res : List Tile × GameState × Timer),
      chordLoop now n tiles st tm = some res →
      res.1.map tileSig = tiles.map tileSig := by
  intro n
  induction n with
  | nil =>
    intro tiles st tm res h
    cases h
    rfl
  | cons i rest ih =>
    intro tiles st tm res h
    cases ht : tiles[i]? with
    | none =>
      unfold chordLoop at h
      rw [ht] at h
      cases h
    | some t =>
      cases hf : t.flagged with
      | true =>
        rw [chordLoop_cons_flagged ht hf] at h
        exact ih _ _ _ _ h
      | false =>
        cases hm : t.mine with
        | true =>
          rw [chordLoop_cons_mine ht hf hm] at h
          exact ih _ _ _ _ h
        | false =>
          rw [chordLoop_cons_safe ht hf hm] at h
          rw [ih _ _ _ _ h]
          apply mapSetSame
          intro x hx
          rw [ht] at hx
          cases hx
          rfl

theorem revealIfSafe_set_target {t : Tile} (hf : t.flagged = false) (hm : t.mine = false) :
    revealIfSafe { t with revealed := true } = { t with revealed := true } := by
  cases t
  simp_all [revealIfSafe]

theorem chordLoop_spec (now : Nat) :
    ∀ (n : List Nat) (tiles : List Tile) (st : GameState) (tm : Timer),
      (∀ i ∈ n, i < tiles.length) →
      ∃ tiles' st' tm', chordLoop now n tiles st tm = some (tiles', st', tm') ∧
        (∀ j : Nat, tiles'[j]? =
          if j ∈ n then (tiles[j]?).map revealIfSafe else tiles[j]?) ∧
        st' = (if n.any (probe mineTrap tiles) then GameState.lose else st) ∧
        tm' = (if n.any (probe mineTrap tiles) then tm.stop now else tm) := by
  intro n
  induction n with
  | nil =>
    intro tiles st tm _
    exact ⟨tiles, st, tm, rfl, by simp, by simp, by simp⟩
  | cons i rest ih =>
    intro tiles st tm hrange
    have hi : i < tiles.length := hrange i (by simp)
    have ht : tiles[i]? = some tiles[i] := List.getElem?_eq_getElem hi
    have hrest : ∀ k ∈ rest, k < tiles.length := fun k hk => hrange k (by simp [hk])
    cases hf : (tiles[i]).flagged with
    | true =>
      obtain ⟨tiles', st', tm', heq, hpt, hst, htm⟩ := ih tiles st tm hrest
      have htrap : probe mineTrap tiles i = false := by
        rw [probe_pos ht]
        simp [mineTrap, hf]
      refine ⟨tiles', st', tm', ?_, ?_, ?_, ?_⟩
      · rw [chordLoop_cons_flagged ht hf, heq]
      · intro j
        rw [hpt j]
        rcases Decidable.em (j = i) with rfl | hne
        · rcases Decidable.em (j ∈ rest) with hjr | hjr
          · simp [hjr]
          · rw [if_neg hjr, if_pos (by simp), ht]
            simp [revealIfSafe_of_flagged hf]
        · rcases Decidable.em (j ∈ rest) with hjr | hjr
          · rw [if_pos hjr, if_pos (by simp [hjr])]
          · rw [if_neg hjr, if_neg (by simp [hne, hjr])]
      · rw [hst, List.any_cons, htrap, Bool.false_or]
      · rw [htm, List.any_cons, htrap, Bool.false_or]
    | false =>
      cases hm : (tiles[i]).mine with
      | true =>
        obtain ⟨tiles', st', tm', heq, hpt, hst, htm⟩ :=
          ih tiles GameState.lose (tm.stop now) hrest
        have htrap : probe mineTrap tiles i = true := by
          rw [probe_pos ht]
          simp [mineTrap, hf, hm]
        refine ⟨tiles', st', tm', ?_, ?_, ?_, ?_⟩
        · rw [chordLoop_cons_mine ht hf hm, heq]
        · intro j
          rw [hpt j]
          rcases Decidable.em (j = i) with rfl | hne
          · rcases Decidable.em (j ∈ rest) with hjr | hjr
            · simp [hjr]
            · rw [if_neg hjr, if_pos (by simp), ht]
              simp [revealIfSafe_of_mine hm]
          · rcases Decidable.em (j ∈ rest) with hjr | hjr
            · rw [if_pos hjr, if_pos (by simp [hjr])]
            · rw [if_neg hjr, if_neg (by simp [hne, hjr])]
        · rw [List.any_cons, htrap, Bool.true_or, if_pos rfl, hst]
          rcases rest.any (probe mineTrap tiles) with _ | _ <;> simp
        · rw [List.any_cons, htrap, Bool.true_or, if_pos rfl, htm]
          rcases rest.any (probe mineTrap tiles) with _ | _ <;>
            simp [Timer.stop_stop]
      | false =>
        have hset : ∀ j : Nat, (tiles.set i { tiles[i] with revealed := true })[j]? =
            if j = i then some { tiles[i] with revealed := true } else tiles[j]? :=
          fun j => getElem?_set_split tiles i j _ hi
        have hrest2 : ∀ k ∈ rest,
            k < (tiles.set i { tiles[i] with revealed := true }).length := by
          intro k hk
          rw [List.length_set]
          exact hrest k hk
        obtain ⟨tiles', st', tm', heq, hpt, hst, htm⟩ :=
          ih (tiles.set i { tiles[i] with revealed := true }) st tm hrest2
        have htrap : probe mineTrap tiles i = false := by
          rw [probe_pos ht]
          simp [mineTrap, hm]
        have hprobe : ∀ k ∈ rest,
            probe mineTrap (tiles.set i { tiles[i] with revealed := true }) k =
              probe mineTrap tiles k := by
          intro k _
          unfold probe
          rw [hset k]
          rcases Decidable.em (k = i) with rfl | hne
          · rw [if_pos rfl, ht]
            rfl
          · rw [if_neg hne]
        have hanyeq : rest.any
              (probe mineTrap (tiles.set i { tiles[i] with revealed := true })) =
            rest.any (probe mineTrap tiles) := anyCongr hprobe
        refine ⟨tiles', st', tm', ?_, ?_, ?_, ?_⟩
        · rw [chordLoop_cons_safe ht hf hm, heq]
        · intro j
          rw [hpt j]
          rcases Decidable.em (j = i) with rfl | hne
          · rcases Decidable.em (j ∈ rest) with hjr | hjr
            · rw [if_pos hjr, if_pos (by simp), hset j, if_pos rfl, ht]
              simp [revealIfSafe_set_target hf hm, revealIfSafe_of_safe hf hm]
            · rw [if_neg hjr, if_pos (by simp), hset j, if_pos rfl, ht]
              simp [revealIfSafe_of_safe hf hm]
          · rw [hset j, if_neg hne]
            rcases Decidable.em (j ∈ rest) with hjr | hjr
            · rw [if_pos hjr, if_pos (by simp [hjr])]
            · rw [if_neg hjr, if_neg (by simp [hne, hjr])]
        · rw [hst, hanyeq, List.any_cons, htrap, Bool.false_or]
        · rw [htm, hanyeq, List.any_cons, htrap, Bool.false_or]

theorem genList_spec (height width : Nat) (mines : List Bool) :
    ∀ (l : List Nat) (ts : List Tile), genList height width mines l = some ts →
      ts.length = l.length ∧
      ∀ k (hk : k < l.length), ∃ m c, mines[l[k]]? = some m ∧
        countAt id mines (neighbours height width (l[k])) = some c ∧
        ts[k]? = some ⟨m, c, false, false⟩ := by
  intro l
  induction l with
  | nil =>
    intro ts h
    cases h
    exact ⟨rfl, fun k hk => absurd hk (by simp)⟩
  | cons a l ih =>
    intro ts h
    unfold genList at h
    cases hm : mines[a]? with
    | none => rw [hm] at h; cases h
    | some m =>
      rw [hm] at h
      cases hc : countAt id mines (neighbours height width a) with
      | none => rw [hc] at h; cases h
      | some c =>
        rw [hc] at h
        cases htl : genList height width mines l with
        | none => rw [htl] at h; cases h
        | some tl =>
          rw [htl] at h
          cases h
          obtain ⟨hlen, hspec⟩ := ih tl htl
          refine ⟨by simpa using hlen, ?_⟩
          intro k hk
          cases k with
          | zero => exact ⟨m, c, hm, hc, by simp⟩
          | succ k =>
            have hk' : k < l.length := by simpa using hk
            obtain ⟨m', c', h1, h2, h3⟩ := hspec k hk'
            exact ⟨m', c', by simpa using h1, by simpa using h2, by simpa using h3⟩

theorem genList_unrevealed (height width : Nat) (mines : List Bool) :
    ∀ (l : List Nat) (ts : List Tile), genList height width mines l = some ts →
      ∀ t ∈ ts, t.revealed = false ∧ t.flagged = false := by
  intro l
  induction l with
  | nil =>
    intro ts h t ht
    cases h
    cases ht
  | cons a l ih =>
    intro ts h t ht
    unfold genList at h
    cases hm : mines[a]? with
    | none => rw [hm] at h; cases h
    | some m =>
      rw [hm] at h
      cases hc : countAt id mines (neighbours height width a) with
      | none => rw [hc] at h; cases h
      | some c =>
        rw [hc] at h
        cases htl : genList height width mines l with
        | none => rw [htl] at h; cases h
        | some tl =>
          rw [htl] at h
          cases h
          rcases List.mem_cons.mp ht with rfl | ht'
          · exact ⟨rfl, rfl⟩
          · exact ih tl htl t ht'

theorem generate_spec {height width : Nat} {mines : List Bool} {ts : List Tile}
    (h : generate height width mines = some ts) :
    ts.length = height * width ∧
    ∀ k, k < height * width → ∃ m c, mines[k]? = some m ∧
      countAt id mines (neighbours height width k) = some c ∧
      ts[k]? = some ⟨m, c, false, false⟩ := by
  obtain ⟨hlen, hspec⟩ := genList_spec height width mines _ _ h
  rw [List.length_range] at hlen
  refine ⟨hlen, ?_⟩
  intro k hk
  have hk' : k < (List.range (height * width)).length := by simpa using hk
  obtain ⟨m, c, h1, h2, h3⟩ := hspec k hk'
  simp only [List.getElem_range] at h1 h2
  exact ⟨m, c, h1, h2, h3⟩

theorem generate_norf {height width : Nat} {mines : List Bool} {ts : List Tile}
    (h : generate height width mines = some ts) : NoRF ts := by
  intro t ht hc
  rcases genList_unrevealed height width mines _ _ h t ht with ⟨hr, _⟩
  rw [hr] at hc
  exact Bool.false_ne_true hc.1

theorem generate_adj {height width : Nat} {mines : List Bool} {ts : List Tile}
    (h : generate height width mines = some ts) (hlen : mines.length = height * width) :
    ∀ k, (hk : k < ts.length) →
      (ts.get ⟨k, hk⟩).neighbours =
        ((neighbours height width k).filter (probe Tile.mine ts)).length := by
  obtain ⟨hts, hspec⟩ := generate_spec h
  intro k hk
  have hk2 : k < height * width := hts ▸ hk
  obtain ⟨m, c, h1, h2, h3⟩ := hspec k hk2
  have hget : ts.get ⟨k, hk⟩ = ⟨m, c, false, false⟩ := by
    have := List.getElem?_eq_getElem hk
    rw [h3] at this
    exact (Option.some_inj.mp this).symm
  rw [hget]
  have hrange : ∀ i ∈ neighbours height width k, i < mines.length :=
    countAt_ranges h2
  have hcval := @countAt_eq Bool id mines (neighbours height width k) hrange
  rw [hcval] at h2
  have hc : c = ((neighbours height width k).filter (probe id mines)).length :=
    (Option.some_inj.mp h2).symm
  rw [show (⟨m, c, false, false⟩ : Tile).neighbours = c from rfl, hc]
  congr 1
  apply List.filter_congr
  intro i hik
  have hi : i < mines.length := hrange i hik
  have hi2 : i < height * width := hlen ▸ hi
  obtain ⟨mi, ci, g1, g2, g3⟩ := hspec i hi2
  rw [probe_pos g1, probe_pos g3]
  rfl

theorem interact_running {s : MineSweeper} (h : s.state = GameState.running)
    (a : MSAction) (now : Nat) (fresh : List Bool) :
    interact s a now fresh =
      match a with
      | MSAction.reveal tile => revealAct s tile now
      | MSAction.toggleFlag tile => toggleAct s tile
      | MSAction.chord tile => chordAct s tile now
      | _ => some s := by
  unfold interact
  rw [h]

theorem interact_menu {s : MineSweeper} (h : s.state = GameState.menu)
    (a : MSAction) (now : Nat) (fresh : List Bool) :
    interact s a now fresh =
      match a with
      | MSAction.start =>
        some { s with state := GameState.running, timer := Timer.ticking now }
      | _ => some s := by
  unfold interact
  rw [h]

theorem interact_lose {s : MineSweeper} (h : s.state = GameState.lose)
    (a : MSAction) (now : Nat) (fresh : List Bool) :
    interact s a now fresh =
      match a with
      | MSAction.reset => resetAct s fresh
      | _ => some s := by
  unfold interact
  rw [h]

theorem interact_win {s : MineSweeper} (h : s.state = GameState.win)
    (a : MSAction) (now : Nat) (fresh : List Bool) :
    interact s a now fresh =
      match a with
      | MSAction.reset => resetAct s fresh
      | _ => some s := by
  unfold interact
  rw [h]

theorem revealAct_oob {s : MineSweeper} {tile : Nat} (h : s.tiles.length ≤ tile)
    (now : Nat) : revealAct s tile now = Option.none := by
  unfold revealAct
  rw [List.getElem?_eq_none h]

theorem revealAct_noop {s : MineSweeper} {tile now : Nat} {t : Tile}
    (ht : s.tiles[tile]? = some t) (h : t.revealed = true ∨ t.flagged = true) :
    revealAct s tile now = some s := by
  unfold revealAct
  rw [ht]
  rcases h with h | h <;> simp [h]

theorem revealAct_mine {s : MineSweeper} {tile now : Nat} {t : Tile}
    (ht : s.tiles[tile]? = some t) (hr : t.revealed = false) (hf : t.flagged = false)
    (hm : t.mine = true) :
    revealAct s tile now =
      some { s with state := GameState.lose, timer := s.timer.stop now } := by
  unfold revealAct
  rw [ht]
  simp [hr, hf, hm]

theorem revealAct_safe {s : MineSweeper} {tile now : Nat} {t : Tile}
    (ht : s.tiles[tile]? = some t) (hr : t.revealed = false) (hf : t.flagged = false)
    (hm : t.mine = false) :
    revealAct s tile now =
      if allNonMineRevealed (s.tiles.set tile { t with revealed := true }) then
        some { s with
          tiles := s.tiles.set tile { t with revealed := true }
          state := GameState.win
          timer := s.timer.stop now }
      else
        some { s with tiles := s.tiles.set tile { t with revealed := true } } := by
  unfold revealAct
  rw [ht]
  simp [hr, hf, hm]

theorem toggleAct_oob {s : MineSweeper} {tile : Nat} (h : s.tiles.length ≤ tile) :
    toggleAct s tile = Option.none := by
  unfold toggleAct
  rw [List.getElem?_eq_none h]

theorem toggleAct_noop {s : MineSweeper} {tile : Nat} {t : Tile}
    (ht : s.tiles[tile]? = some t) (hr : t.revealed = true) :
    toggleAct s tile = some s := by
  unfold toggleAct
  rw [ht]
  simp [hr]

theorem toggleAct_flip {s : MineSweeper} {tile : Nat} {t : Tile}
    (ht : s.tiles[tile]? = some t) (hr : t.revealed = false) :
    toggleAct s tile =
      some { s with tiles := s.tiles.set tile { t with flagged := !t.flagged } } := by
  unfold toggleAct
  rw [ht]
  simp [hr]

theorem chordAct_oob {s : MineSweeper} {tile : Nat} (h : s.tiles.length ≤ tile)
    (now : Nat) : chordAct s tile now = Option.none := by
  unfold chordAct
  rw [List.getElem?_eq_none h]

theorem chordAct_noop {s : MineSweeper} {tile now : Nat} {t : Tile}
    (ht : s.tiles[tile]? = some t)
    (h : t.revealed = false ∨ t.flagged = true ∨ t.mine = true) :
    chordAct s tile now = some s := by
  unfold chordAct
  rw [ht]
  rcases h with h | h | h <;> simp [h]

theorem chordAct_ready {s : MineSweeper} {tile now : Nat} {t : Tile}
    (ht : s.tiles[tile]? = some t) (hr : t.revealed = true) (hf : t.flagged = false)
    (hm : t.mine = false) :
    chordAct s tile now =
      match countAt Tile.flagged s.tiles (neighbours s.height s.width tile) with
      | Option.none => Option.none
      | some c =>
        if t.neighbours = c then
          match chordLoop now (neighbours s.height s.width tile) s.tiles s.state s.timer
              with
          | Option.none => Option.none
          | some (tiles, st, tm) =>
            some { s with tiles := tiles, state := st, timer := tm }
        else some s := by
  unfold chordAct
  rw [ht]
  simp [hr, hf, hm]

theorem interact_run_reveal {s : MineSweeper} (h : s.state = GameState.running)
    (tile now : Nat) (fresh : List Bool) :
    interact s (MSAction.reveal tile) now fresh = revealAct s tile now := by
  rw [interact_running h]

theorem interact_run_toggle {s : MineSweeper} (h : s.state = GameState.running)
    (tile now : Nat) (fresh : List Bool) :
    interact s (MSAction.toggleFlag tile) now fresh = toggleAct s tile := by
  rw [interact_running h]

theorem interact_run_chord {s : MineSweeper} (h : s.state = GameState.running)
    (tile now : Nat) (fresh : List Bool) :
    interact s (MSAction.chord tile) now fresh = chordAct s tile now := by
  rw [interact_running h]

theorem interact_run_start {s : MineSweeper} (h : s.state = GameState.running)
    (now : Nat) (fresh : List Bool) : interact s MSAction.start now fresh = some s := by
  rw [interact_running h]

theorem interact_run_reset {s : MineSweeper} (h : s.state = GameState.running)
    (now : Nat) (fresh : List Bool) : interact s MSAction.reset now fresh = some s := by
  rw [interact_running h]

theorem interact_menu_start {s : MineSweeper} (h : s.state = GameState.menu)
    (now : Nat) (fresh : List Bool) :
    interact s MSAction.start now fresh =
      some { s with state := GameState.running, timer := Timer.ticking now } := by
  rw [interact_menu h]

theorem interact_menu_other {s : MineSweeper} (h : s.state = GameState.menu)
    {a : MSAction} (ha : a ≠ MSAction.start) (now : Nat) (fresh : List Bool) :
    interact s a now fresh = some s := by
  rw [interact_menu h]
  cases a
  case start => exact absurd rfl ha
  all_goals rfl

theorem interact_lose_reset {s : MineSweeper} (h : s.state = GameState.lose)
    (now : Nat) (fresh : List Bool) :
    interact s MSAction.reset now fresh = resetAct s fresh := by
  rw [interact_lose h]

theorem interact_win_reset {s : MineSweeper} (h : s.state = GameState.win)
    (now : Nat) (fresh : List Bool) :
    interact s MSAction.reset now fresh = resetAct s fresh := by
  rw [interact_win h]

theorem interact_terminal_other {s : MineSweeper}
    (h : s.state = GameState.lose ∨ s.state = GameState.win)
    {a : MSAction} (ha : a ≠ MSAction.reset) (now : Nat) (fresh : List Bool) :
    interact s a now fresh = some s := by
  rcases h with h | h
  · rw [interact_lose h]
    cases a
    case reset => exact absurd rfl ha
    all_goals rfl
  · rw [interact_win h]
    cases a
    case reset => exact absurd rfl ha
    all_goals rfl

theorem new_inv {ts hgt wd : Nat} {mines : List Bool} {s : MineSweeper}
    (h : MineSweeper.new ts hgt wd mines = some s) :
    ∃ tiles, generate (hgt / ts) (wd / ts) mines = some tiles ∧
      s = { tiles := tiles
            state := GameState.menu
            timer := Timer.none
            height := hgt / ts
            width := wd / ts
            tile_size := ts
            mines := (tiles.filter Tile.mine).length } := by
  simp only [MineSweeper.new] at h
  cases hg : generate (hgt / ts) (wd / ts) mines with
  | none => rw [hg] at h; cases h
  | some tiles =>
    rw [hg] at h
    cases h
    exact ⟨tiles, rfl, rfl⟩

theorem resetAct_inv {s s' : MineSweeper} {fresh : List Bool}
    (h : resetAct s fresh = some s') :
    ∃ tiles, generate s.height s.width fresh = some tiles ∧
      s' = { s with
             mines := (tiles.filter Tile.mine).length
             tiles := tiles
             timer := Timer.none
             state := GameState.menu } := by
  unfold resetAct at h
  cases hg : generate s.height s.width fresh with
  | none => rw [hg] at h; cases h
  | some tiles =>
    rw [hg] at h
    cases h
    exact ⟨tiles, rfl, rfl⟩

theorem chordAct_count {s : MineSweeper} {tile now : Nat} {t : Tile} {c : Nat}
    (ht : s.tiles[tile]? = some t) (hr : t.revealed = true) (hf : t.flagged = false)
    (hm : t.mine = false)
    (hcnt : countAt Tile.flagged s.tiles (neighbours s.height s.width tile) = some c) :
    chordAct s tile now =
      if t.neighbours = c then
        match chordLoop now (neighbours s.height s.width tile) s.tiles s.state s.timer
            with
        | Option.none => Option.none
        | some (tiles, st, tm) =>
          some { s with tiles := tiles, state := st, timer := tm }
      else some s := by
  rw [chordAct_ready ht hr hf hm, hcnt]

theorem chordAct_panic {s : MineSweeper} {tile now : Nat} {t : Tile}
    (ht : s.tiles[tile]? = some t) (hr : t.revealed = true) (hf : t.flagged = false)
    (hm : t.mine = false)
    (hcnt : countAt Tile.flagged s.tiles (neighbours s.height s.width tile) =
      Option.none) :
    chordAct s tile now = Option.none := by
  rw [chordAct_ready ht hr hf hm, hcnt]

theorem chordAct_mismatch {s : MineSweeper} {tile now : Nat} {t : Tile} {c : Nat}
    (ht : s.tiles[tile]? = some t) (hr : t.revealed = true) (hf : t.flagged = false)
    (hm : t.mine = false)
    (hcnt : countAt Tile.flagged s.tiles (neighbours s.height s.width tile) = some c)
    (hne : t.neighbours ≠ c) : chordAct s tile now = some s := by
  rw [chordAct_count ht hr hf hm hcnt, if_neg hne]

theorem chordAct_go {s : MineSweeper} {tile now : Nat} {t : Tile} {c : Nat}
    {tl : List Tile} {st : GameState} {tm : Timer}
    (ht : s.tiles[tile]? = some t) (hr : t.revealed = true) (hf : t.flagged = false)
    (hm : t.mine = false)
    (hcnt : countAt Tile.flagged s.tiles (neighbours s.height s.width tile) = some c)
    (heq : t.neighbours = c)
    (hloop : chordLoop now (neighbours s.height s.width tile) s.tiles s.state s.timer =
      some (tl, st, tm)) :
    chordAct s tile now = some { s with tiles := tl, state := st, timer := tm } := by
  rw [chordAct_count ht hr hf hm hcnt, if_pos heq, hloop]

theorem chordAct_stuck {s : MineSweeper} {tile now : Nat} {t : Tile} {c : Nat}
    (ht : s.tiles[tile]? = some t) (hr : t.revealed = true) (hf : t.flagged = false)
    (hm : t.mine = false)
    (hcnt : countAt Tile.flagged s.tiles (neighbours s.height s.width tile) = some c)
    (heq : t.neighbours = c)
    (hloop : chordLoop now (neighbours s.height s.width tile) s.tiles s.state s.timer =
      Option.none) :
    chordAct s tile now = Option.none := by
  rw [chordAct_count ht hr hf hm hcnt, if_pos heq, hloop]

theorem revealAct_sig {s s' : MineSweeper} {tile now : Nat}
    (h : revealAct s tile now = some s') :
    s'.mines = s.mines ∧ s'.tiles.map tileSig = s.tiles.map tileSig := by
  cases ht : s.tiles[tile]? with
  | none =>
    rw [revealAct_oob (List.getElem?_eq_none_iff.mp ht) now] at h
    cases h
  | some t =>
    have hmset : (s.tiles.set tile { t with revealed := true }).map tileSig =
        s.tiles.map tileSig := by
      apply mapSetSame
      intro x hx
      rw [ht] at hx
      cases hx
      rfl
    cases hr : t.revealed with
    | true =>
      rw [revealAct_noop ht (Or.inl hr)] at h
      cases h
      exact ⟨rfl, rfl⟩
    | false =>
      cases hf : t.flagged with
      | true =>
        rw [revealAct_noop ht (Or.inr hf)] at h
        cases h
        exact ⟨rfl, rfl⟩
      | false =>
        cases hm : t.mine with
        | true =>
          rw [revealAct_mine ht hr hf hm] at h
          cases h
          exact ⟨rfl, rfl⟩
        | false =>
          rw [revealAct_safe ht hr hf hm] at h
          cases hwin : allNonMineRevealed (s.tiles.set tile { t with revealed := true })
            with
          | true =>
            rw [hwin, if_pos rfl] at h
            cases h
            exact ⟨rfl, hmset⟩
          | false =>
            rw [hwin] at h
            simp only [Bool.false_eq_true, if_false] at h
            cases h
            exact ⟨rfl, hmset⟩

theorem toggleAct_sig {s s' : MineSweeper} {tile : Nat}
    (h : toggleAct s tile = some s') :
    s'.mines = s.mines ∧ s'.tiles.map tileSig = s.tiles.map tileSig := by
  cases ht : s.tiles[tile]? with
  | none =>
    rw [toggleAct_oob (List.getElem?_eq_none_iff.mp ht)] at h
    cases h
  | some t =>
    cases hr : t.revealed with
    | true =>
      rw [toggleAct_noop ht hr] at h
      cases h
      exact ⟨rfl, rfl⟩
    | false =>
      rw [toggleAct_flip ht hr] at h
      cases h
      refine ⟨rfl, ?_⟩
      apply mapSetSame
      intro x hx
      rw [ht] at hx
      cases hx
      rfl

theorem chordAct_sig {s s' : MineSweeper} {tile now : Nat}
    (h : chordAct s tile now = some s') :
    s'.mines = s.mines ∧ s'.tiles.map tileSig = s.tiles.map tileSig := by
  cases ht : s.tiles[tile]? with
  | none =>
    rw [chordAct_oob (List.getElem?_eq_none_iff.mp ht) now] at h
    cases h
  | some t =>
    cases hr : t.revealed with
    | false =>
      rw [chordAct_noop ht (Or.inl hr)] at h
      cases h
      exact ⟨rfl, rfl⟩
    | true =>
      cases hf : t.flagged with
      | true =>
        rw [chordAct_noop ht (Or.inr (Or.inl hf))] at h
        cases h
        exact ⟨rfl, rfl⟩
      | false =>
        cases hm : t.mine with
        | true =>
          rw [chordAct_noop ht (Or.inr (Or.inr hm))] at h
          cases h
          exact ⟨rfl, rfl⟩
        | false =>
          cases hcnt : countAt Tile.flagged s.tiles (neighbours s.height s.width tile)
            with
          | none =>
            rw [chordAct_panic ht hr hf hm hcnt] at h
            cases h
          | some c =>
            rcases Decidable.em (t.neighbours = c) with heq | hne
            · cases hloop : chordLoop now (neighbours s.height s.width tile) s.tiles
                  s.state s.timer with
              | none =>
                rw [chordAct_stuck ht hr hf hm hcnt heq hloop] at h
                cases h
              | some res =>
                obtain ⟨tl, st, tm⟩ := res
                rw [chordAct_go ht hr hf hm hcnt heq hloop] at h
                cases h
                exact ⟨rfl, chordLoop_sig now _ _ _ _ _ hloop⟩
            · rw [chordAct_mismatch ht hr hf hm hcnt hne] at h
              cases h
              exact ⟨rfl, rfl⟩

/-- Reveal, toggle-flag and chord never change the mine layout, the adjacency counts,
or the stored mine total, in any phase. -/
theorem interact_sig {s s' : MineSweeper} {tile : Nat} {a : MSAction} {now : Nat}
    {fresh : List Bool}
    (ha : a = MSAction.reveal tile ∨ a = MSAction.toggleFlag tile ∨
      a = MSAction.chord tile)
    (h : interact s a now fresh = some s') :
    s'.mines = s.mines ∧ s'.tiles.map tileSig = s.tiles.map tileSig := by
  cases hstate : s.state with
  | running =>
    rcases ha with rfl | rfl | rfl
    · rw [interact_run_reveal hstate] at h
      exact revealAct_sig h
    · rw [interact_run_toggle hstate] at h
      exact toggleAct_sig h
    · rw [interact_run_chord hstate] at h
      exact chordAct_sig h
  | menu =>
    have : interact s a now fresh = some s := by
      apply interact_menu_other hstate ?_ now fresh
      rcases ha with rfl | rfl | rfl <;> intro hc <;> cases hc
    rw [this] at h
    cases h
    exact ⟨rfl, rfl⟩
  | lose =>
    have : interact s a now fresh = some s := by
      apply interact_terminal_other (Or.inl hstate) ?_ now fresh
      rcases ha with rfl | rfl | rfl <;> intro hc <;> cases hc
    rw [this] at h
    cases h
    exact ⟨rfl, rfl⟩
  | win =>
    have : interact s a now fresh = some s := by
      apply interact_terminal_other (Or.inr hstate) ?_ now fresh
      rcases ha with rfl | rfl | rfl <;> intro hc <;> cases hc
    rw [this] at h
    cases h
    exact ⟨rfl, rfl⟩

theorem norf_set_unflagged {tiles : List Tile} {i : Nat} {t : Tile}
    (hn : NoRF tiles) (hf : t.flagged = false) : NoRF (tiles.set i t) := by
  intro u hu hc
  rcases memSetCases hu with h1 | rfl
  · exact hn u h1 hc
  · rw [hf] at hc
    exact Bool.false_ne_true hc.2

theorem norf_set_unrevealed {tiles : List Tile} {i : Nat} {t : Tile}
    (hn : NoRF tiles) (hr : t.revealed = false) : NoRF (tiles.set i t) := by
  intro u hu hc
  rcases memSetCases hu with h1 | rfl
  · exact hn u h1 hc
  · rw [hr] at hc
    exact Bool.false_ne_true hc.1

theorem revealAct_norf {s s' : MineSweeper} {tile now : Nat}
    (h : revealAct s tile now = some s') (hn : NoRF s.tiles) : NoRF s'.tiles := by
  cases ht : s.tiles[tile]? with
  | none =>
    rw [revealAct_oob (List.getElem?_eq_none_iff.mp ht) now] at h
    cases h
  | some t =>
    cases hr : t.revealed with
    | true =>
      rw [revealAct_noop ht (Or.inl hr)] at h
      cases h
      exact hn
    | false =>
      cases hf : t.flagged with
      | true =>
        rw [revealAct_noop ht (Or.inr hf)] at h
        cases h
        exact hn
      | false =>
        cases hm : t.mine with
        | true =>
          rw [revealAct_mine ht hr hf hm] at h
          cases h
          exact hn
        | false =>
          rw [revealAct_safe ht hr hf hm] at h
          cases hwin : allNonMineRevealed (s.tiles.set tile { t with revealed := true })
            with
          | true =>
            rw [hwin, if_pos rfl] at h
            cases h
            exact norf_set_unflagged hn hf
          | false =>
            rw [hwin] at h
            simp only [Bool.false_eq_true, if_false] at h
            cases h
            exact norf_set_unflagged hn hf

theorem toggleAct_norf {s s' : MineSweeper} {tile : Nat}
    (h : toggleAct s tile = some s') (hn : NoRF s.tiles) : NoRF s'.tiles := by
  cases ht : s.tiles[tile]? with
  | none =>
    rw [toggleAct_oob (List.getElem?_eq_none_iff.mp ht)] at h
    cases h
  | some t =>
    cases hr : t.revealed with
    | true =>
      rw [toggleAct_noop ht hr] at h
      cases h
      exact hn
    | false =>
      rw [toggleAct_flip ht hr] at h
      cases h
      exact norf_set_unrevealed hn hr

theorem chordAct_norf {s s' : MineSweeper} {tile now : Nat}
    (h : chordAct s tile now = some s') (hn : NoRF s.tiles) : NoRF s'.tiles := by
  cases ht : s.tiles[tile]? with
  | none =>
    rw [chordAct_oob (List.getElem?_eq_none_iff.mp ht) now] at h
    cases h
  | some t =>
    cases hr : t.revealed with
    | false =>
      rw [chordAct_noop ht (Or.inl hr)] at h
      cases h
      exact hn
    | true =>
      cases hf : t.flagged with
      | true =>
        rw [chordAct_noop ht (Or.inr (Or.inl hf))] at h
        cases h
        exact hn
      | false =>
        cases hm : t.mine with
        | true =>
          rw [chordAct_noop ht (Or.inr (Or.inr hm))] at h
          cases h
          exact hn
        | false =>
          cases hcnt : countAt Tile.flagged s.tiles (neighbours s.height s.width tile)
            with
          | none =>
            rw [chordAct_panic ht hr hf hm hcnt] at h
            cases h
          | some c =>
            rcases Decidable.em (t.neighbours = c) with heq | hne
            · cases hloop : chordLoop now (neighbours s.height s.width tile) s.tiles
                  s.state s.timer with
              | none =>
                rw [chordAct_stuck ht hr hf hm hcnt heq hloop] at h
                cases h
              | some res =>
                obtain ⟨tl, st, tm⟩ := res
                rw [chordAct_go ht hr hf hm hcnt heq hloop] at h
                cases h
                exact chordLoop_norf now _ _ _ _ _ hloop hn
            · rw [chordAct_mismatch ht hr hf hm hcnt hne] at h
              cases h
              exact hn

/-- Every action preserves the no-revealed-and-flagged invariant. -/
theorem interact_norf {s s' : MineSweeper} {a : MSAction} {now : Nat}
    {fresh : List Bool} (h : interact s a now fresh = some s') (hn : NoRF s.tiles) :
    NoRF s'.tiles := by
  cases hstate : s.state with
  | running =>
    cases a with
    | reveal tile =>
      rw [interact_run_reveal hstate] at h
      exact revealAct_norf h hn
    | toggleFlag tile =>
      rw [interact_run_toggle hstate] at h
      exact toggleAct_norf h hn
    | chord tile =>
      rw [interact_run_chord hstate] at h
      exact chordAct_norf h hn
    | start =>
      rw [interact_run_start hstate] at h
      cases h
      exact hn
    | reset =>
      rw [interact_run_reset hstate] at h
      cases h
      exact hn
  | menu =>
    cases a with
    | start =>
      rw [interact_menu_start hstate] at h
      cases h
      exact hn
    | reveal tile =>
      rw [interact_menu_other hstate (by intro hc; cases hc) now fresh] at h
      cases h
      exact hn
    | toggleFlag tile =>
      rw [interact_menu_other hstate (by intro hc; cases hc) now fresh] at h
      cases h
      exact hn
    | chord tile =>
      rw [interact_menu_other hstate (by intro hc; cases hc) now fresh] at h
      cases h
      exact hn
    | reset =>
      rw [interact_menu_other hstate (by intro hc; cases hc) now fresh] at h
      cases h
      exact hn
  | lose =>
    cases a with
    | reset =>
      rw [interact_lose_reset hstate] at h
      obtain ⟨tiles, hg, rfl⟩ := resetAct_inv h
      exact generate_norf hg
    | reveal tile =>
      rw [interact_terminal_other (Or.inl hstate) (by intro hc; cases hc) now fresh] at h
      cases h
      exact hn
    | toggleFlag tile =>
      rw [interact_terminal_other (Or.inl hstate) (by intro hc; cases hc) now fresh] at h
      cases h
      exact hn
    | chord tile =>
      rw [interact_terminal_other (Or.inl hstate) (by intro hc; cases hc) now fresh] at h
      cases h
      exact hn
    | start =>
      rw [interact_terminal_other (Or.inl hstate) (by intro hc; cases hc) now fresh] at h
      cases h
      exact hn
  | win =>
    cases a with
    | reset =>
      rw [interact_win_reset hstate] at h
      obtain ⟨tiles, hg, rfl⟩ := resetAct_inv h
      exact generate_norf hg
    | reveal tile =>
      rw [interact_terminal_other (Or.inr hstate) (by intro hc; cases hc) now fresh] at h
      cases h
      exact hn
    | toggleFlag tile =>
      rw [interact_terminal_other (Or.inr hstate) (by intro hc; cases hc) now fresh] at h
      cases h
      exact hn
    | chord tile =>
      rw [interact_terminal_other (Or.inr hstate) (by intro hc; cases hc) now fresh] at h
      cases h
      exact hn
    | start =>
      rw [interact_terminal_other (Or.inr hstate) (by intro hc; cases hc) now fresh] at h
      cases h
      exact hn

/-- A 2-by-2 board with one mine at index 0, running, with a ticking timer; reachable
by starting the game on the board generated from samples `[true, false, false, false]`. -/
def boardStart : MineSweeper :=
  ⟨[⟨true, 0, false, false⟩, ⟨false, 1, false, false⟩, ⟨false, 1, false, false⟩,
    ⟨false, 1, false, false⟩], GameState.running, Timer.ticking 0, 2, 2, 1, 1⟩

/-- `boardStart` after flagging tile 0 and revealing tile 3: ready for a chord on 3. -/
def boardChord : MineSweeper :=
  ⟨[⟨true, 0, false, true⟩, ⟨false, 1, false, false⟩, ⟨false, 1, false, false⟩,
    ⟨false, 1, true, false⟩], GameState.running, Timer.ticking 0, 2, 2, 1, 1⟩

/-- `boardChord` after chording tile 3: every non-mine tile is revealed, yet the phase
is still running. -/
def boardChordDone : MineSweeper :=
  ⟨[⟨true, 0, false, true⟩, ⟨false, 1, true, false⟩, ⟨false, 1, true, false⟩,
    ⟨false, 1, true, false⟩], GameState.running, Timer.ticking 0, 2, 2, 1, 1⟩

/-- `boardStart` after revealing tile 3 only. -/
def boardStartRevealed : MineSweeper :=
  ⟨[⟨true, 0, false, false⟩, ⟨false, 1, false, false⟩, ⟨false, 1, false, false⟩,
    ⟨false, 1, true, false⟩], GameState.running, Timer.ticking 0, 2, 2, 1, 1⟩

/-- A single-tile board without a mine, running with a ticking timer. -/
def boardSolo : MineSweeper :=
  ⟨[⟨false, 0, false, false⟩], GameState.running, Timer.ticking 0, 1, 1, 1, 0⟩

/-- A single-tile board with zero mines whose only tile is flagged: one more flag than
there are mines. -/
def boardFlagged : MineSweeper :=
  ⟨[⟨false, 0, false, true⟩], GameState.running, Timer.ticking 0, 1, 1, 1, 0⟩

/-- The menu board produced by `new 1 2 2 [true, false, false, false]`. -/
def boardMenu : MineSweeper :=
  ⟨[⟨true, 0, false, false⟩, ⟨false, 1, false, false⟩, ⟨false, 1, false, false⟩,
    ⟨false, 1, false, false⟩], GameState.menu, Timer.none, 2, 2, 1, 1⟩

/-- A lost game on the 2-by-2 board. -/
def boardLost : MineSweeper :=
  ⟨[⟨true, 0, false, false⟩, ⟨false, 1, true, false⟩, ⟨false, 1, false, false⟩,
    ⟨false, 1, false, false⟩], GameState.lose, Timer.stopped 5, 2, 2, 1, 1⟩

/-- C2: `neighbours` does not implement the row-major convention on non-square
boards. On the 6-tile board with `height = 2`, `width = 3`, the neighbour list of
tile 2 is `[1, 2, 3]`: it contains tile 2 itself and omits 4 (and 5), while under
`index = row * width + col` the neighbours of tile 2 are exactly `{1, 4, 5}`. The
`col = tile / height`, `row = tile % width` arithmetic is consistent only when
`width = height`; on the square 3-by-3 board the same tile 2 gets exactly `[1, 4, 5]`. -/
theorem claim2_mixed_convention :
    neighbours 2 3 2 = [1, 2, 3] ∧
    2 ∈ neighbours 2 3 2 ∧
    4 ∉ neighbours 2 3 2 ∧
    neighbours 3 3 2 = [1, 4, 5] := by decide

/-- C7: the remaining-mine count of `draw` is a `usize` subtraction, not an exact
integer: on `boardFlagged` (zero mines, one flag) the exact value is `-1`, but the
code underflows — wrapping to `2 ^ 64 - 1` in release builds (and panicking in debug
builds). -/
theorem claim7_minecount_underflow :
    boardFlagged.mines < (boardFlagged.tiles.filter Tile.flagged).length ∧
    minecount boardFlagged = 2 ^ 64 - 1 ∧
    (boardFlagged.mines : Int) -
      ((boardFlagged.tiles.filter Tile.flagged).length : Int) = -1 := by
  refine ⟨by decide, ?_, by decide⟩
  rfl

/-- C3 counterexample: a reveal at the out-of-range index 9 on the 4-tile running
board is an out-of-bounds indexing panic (modelled `Option.none`), not a silent no-op
returning the state unchanged. -/
theorem claim3_counterexample :
    interact boardStart (MSAction.reveal 9) 0 [] = Option.none ∧
    interact boardStart (MSAction.reveal 9) 0 [] ≠ some boardStart := by decide

/-- C3 (amended): `interact` never validates the index. While running, a reveal,
toggle-flag or chord at an index outside `[0, width*height)` hits the unchecked
`self.tiles[tile]` indexing and panics (modelled as `Option.none`) — defined
behaviour, but a crash rather than a no-op; in the other phases the click is ignored
before any indexing happens. -/
theorem claim3_oob_panics (s : MineSweeper) (tile now : Nat) (fresh : List Bool)
    (hrun : s.state = GameState.running) (hoob : s.tiles.length ≤ tile) :
    interact s (MSAction.reveal tile) now fresh = Option.none ∧
    interact s (MSAction.toggleFlag tile) now fresh = Option.none ∧
    interact s (MSAction.chord tile) now fresh = Option.none := by
  refine ⟨?_, ?_, ?_⟩
  · rw [interact_run_reveal hrun, revealAct_oob hoob]
  · rw [interact_run_toggle hrun, toggleAct_oob hoob]
  · rw [interact_run_chord hrun, chordAct_oob hoob]

theorem claim3_witness :
    boardStart.state = GameState.running ∧ boardStart.tiles.length ≤ 9 ∧
    interact boardStart (MSAction.toggleFlag 9) 1 [] = Option.none :=
  ⟨rfl, by decide, (claim3_oob_panics boardStart 9 1 [] rfl (by decide)).2.1⟩

/-- C6: revealing an unrevealed, unflagged mine while running transitions the phase
to lose and stops the stopwatch: the timer becomes `stopped (now - t0)` and every
later `get_time` call returns that same captured duration. -/
theorem claim6_reveal_mine_stops_clock (s : MineSweeper) (tile now t0 : Nat)
    (fresh : List Bool) (t : Tile) (hrun : s.state = GameState.running)
    (ht : s.tiles[tile]? = some t) (hm : t.mine = true) (hr : t.revealed = false)
    (hf : t.flagged = false) (htm : s.timer = Timer.ticking t0) :
    interact s (MSAction.reveal tile) now fresh =
      some { s with state := GameState.lose, timer := Timer.stopped (now - t0) } ∧
    ∀ m : Nat, Timer.get_time (Timer.stopped (now - t0)) m = some (now - t0) := by
  constructor
  · rw [interact_run_reveal hrun, revealAct_mine ht hr hf hm, htm,
      Timer.stop_ticking]
  · intro m
    rfl

theorem claim6_witness :
    interact boardStart (MSAction.reveal 0) 5 [] =
      some { boardStart with state := GameState.lose, timer := Timer.stopped 5 } ∧
    Timer.get_time (Timer.stopped 5) 99 = some 5 ∧
    Timer.get_time (Timer.stopped 5) 1000 = some 5 := by
  have h := claim6_reveal_mine_stops_clock boardStart 0 5 0 [] ⟨true, 0, false, false⟩
    rfl rfl rfl rfl rfl rfl
  exact ⟨h.1, h.2 99, h.2 1000⟩

/-- C10: revealing an unrevealed, unflagged mine while running leaves the whole grid
unchanged — the record update touches only the `state` and `timer` fields, so the
triggering tile keeps `revealed = false` and its `flagged` value. -/
theorem claim10_reveal_mine_frame (s : MineSweeper) (tile now : Nat)
    (fresh : List Bool) (t : Tile) (hrun : s.state = GameState.running)
    (ht : s.tiles[tile]? = some t) (hm : t.mine = true) (hr : t.revealed = false)
    (hf : t.flagged = false) :
    interact s (MSAction.reveal tile) now fresh =
      some { s with state := GameState.lose, timer := s.timer.stop now } := by
  rw [interact_run_reveal hrun, revealAct_mine ht hr hf hm]

theorem claim10_witness :
    interact boardStart (MSAction.reveal 0) 7 [] =
      some { boardStart with state := GameState.lose, timer := Timer.stopped 7 } ∧
    ({ boardStart with
       state := GameState.lose
       timer := Timer.stopped 7 }).tiles = boardStart.tiles := by
  have h := claim10_reveal_mine_frame boardStart 0 7 [] ⟨true, 0, false, false⟩ rfl rfl
    rfl rfl rfl
  exact ⟨h, rfl⟩

/-- C8: in-range out-of-domain actions are silent no-ops that leave the whole state
(record equality: all tiles, phase, stopwatch, mine total) unchanged: revealing an
already-revealed or flagged tile, toggling the flag of a revealed tile, any
reveal/flag/chord while the phase is menu, lose or win, start outside the menu, and
reset outside lose/win. -/
theorem claim8_noops (s : MineSweeper) (tile now : Nat) (fresh : List Bool)
    (t : Tile) :
    (s.state = GameState.running → s.tiles[tile]? = some t →
      t.revealed = true ∨ t.flagged = true →
      interact s (MSAction.reveal tile) now fresh = some s) ∧
    (s.state = GameState.running → s.tiles[tile]? = some t → t.revealed = true →
      interact s (MSAction.toggleFlag tile) now fresh = some s) ∧
    (s.state = GameState.menu →
      interact s (MSAction.reveal tile) now fresh = some s ∧
      interact s (MSAction.toggleFlag tile) now fresh = some s ∧
      interact s (MSAction.chord tile) now fresh = some s ∧
      interact s MSAction.reset now fresh = some s) ∧
    (s.state = GameState.lose ∨ s.state = GameState.win →
      interact s (MSAction.reveal tile) now fresh = some s ∧
      interact s (MSAction.toggleFlag tile) now fresh = some s ∧
      interact s (MSAction.chord tile) now fresh = some s ∧
      interact s MSAction.start now fresh = some s) ∧
    (s.state ≠ GameState.menu → interact s MSAction.start now fresh = some s) ∧
    (s.state = GameState.running ∨ s.state = GameState.menu →
      interact s MSAction.reset now fresh = some s) := by
  refine ⟨?_, ?_, ?_, ?_, ?_, ?_⟩
  · intro hrun ht hcond
    rw [interact_run_reveal hrun]
    exact revealAct_noop ht hcond
  · intro hrun ht hr
    rw [interact_run_toggle hrun]
    exact toggleAct_noop ht hr
  · intro hmenu
    exact ⟨interact_menu_other hmenu (by intro hc; cases hc) now fresh,
      interact_menu_other hmenu (by intro hc; cases hc) now fresh,
      interact_menu_other hmenu (by intro hc; cases hc) now fresh,
      interact_menu_other hmenu (by intro hc; cases hc) now fresh⟩
  · intro hterm
    exact ⟨interact_terminal_other hterm (by intro hc; cases hc) now fresh,
      interact_terminal_other hterm (by intro hc; cases hc) now fresh,
      interact_terminal_other hterm (by intro hc; cases hc) now fresh,
      interact_terminal_other hterm (by intro hc; cases hc) now fresh⟩
  · intro hne
    cases hstate : s.state with
    | running => exact interact_run_start hstate now fresh
    | lose =>
      exact interact_terminal_other (Or.inl hstate) (by intro hc; cases hc) now fresh
    | win =>
      exact interact_terminal_other (Or.inr hstate) (by intro hc; cases hc) now fresh
    | menu => exact absurd hstate hne
  · intro h
    rcases h with h | h
    · exact interact_run_reset h now fresh
    · exact interact_menu_other h (by intro hc; cases hc) now fresh

theorem claim8_witness :
    interact boardChord (MSAction.reveal 3) 1 [] = some boardChord ∧
    interact boardChord (MSAction.reveal 0) 1 [] = some boardChord ∧
    interact boardChord (MSAction.toggleFlag 3) 1 [] = some boardChord ∧
    interact boardMenu (MSAction.reveal 2) 1 [] = some boardMenu ∧
    interact boardMenu (MSAction.chord 2) 1 [] = some boardMenu ∧
    interact boardLost (MSAction.reveal 2) 1 [] = some boardLost ∧
    interact boardLost MSAction.start 1 [] = some boardLost ∧
    interact boardChord MSAction.start 1 [] = some boardChord ∧
    interact boardMenu MSAction.reset 1 [] = some boardMenu := by
  refine ⟨?_, ?_, ?_, ?_, ?_, ?_, ?_, ?_, ?_⟩
  · exact (claim8_noops boardChord 3 1 [] ⟨false, 1, true, false⟩).1 rfl rfl (Or.inl rfl)
  · exact (claim8_noops boardChord 0 1 [] ⟨true, 0, false, true⟩).1 rfl rfl (Or.inr rfl)
  · exact (claim8_noops boardChord 3 1 [] ⟨false, 1, true, false⟩).2.1 rfl rfl rfl
  · exact ((claim8_noops boardMenu 2 1 [] ⟨false, 1, false, false⟩).2.2.1 rfl).1
  · exact ((claim8_noops boardMenu 2 1 [] ⟨false, 1, false, false⟩).2.2.1 rfl).2.2.1
  · exact ((claim8_noops boardLost 2 1 [] ⟨false, 1, false, false⟩).2.2.2.1
      (Or.inl rfl)).1
  · exact ((claim8_noops boardLost 2 1 [] ⟨false, 1, false, false⟩).2.2.2.1
      (Or.inl rfl)).2.2.2
  · exact (claim8_noops boardChord 0 1 [] ⟨true, 0, false, true⟩).2.2.2.2.1
      (by decide)
  · exact (claim8_noops boardMenu 0 1 [] ⟨true, 0, false, false⟩).2.2.2.2.2
      (Or.inr rfl)

/-- C9: in every state reachable from a freshly generated board through any sequence
of actions, no tile is ever revealed and flagged at the same time: generation makes
every tile unrevealed and unflagged, revealing requires the tile to be unflagged,
flag-toggling requires it to be unrevealed, and the chord loop only reveals unflagged
neighbours. -/
theorem claim9_no_revealed_flagged (s : MineSweeper) (h : Reachable s) :
    NoRF s.tiles := by
  induction h with
  | init ts hgt wd mines s0 hnew =>
    obtain ⟨tiles, hg, rfl⟩ := new_inv hnew
    exact generate_norf hg
  | step s0 s' a now fresh hreach hstep ih =>
    exact interact_norf hstep ih

theorem claim9_witness :
    ¬((⟨true, 0, false, false⟩ : Tile).revealed = true ∧
      (⟨true, 0, false, false⟩ : Tile).flagged = true) :=
  claim9_no_revealed_flagged boardMenu
    (Reachable.init 1 2 2 [true, false, false, false] boardMenu (by decide))
    ⟨true, 0, false, false⟩ (by decide)

/-- C5: after board generation — construction (`new`) or reset — the stored mine
total equals the number of tiles with `mine = true` (it is computed as exactly that
count), and every tile's adjacency count equals the number of indices in its
neighbour list whose tile is a mine; and no reveal, toggle-flag or chord ever changes
the mine total, a tile's mine flag, or a tile's adjacency count. The length
hypotheses say that the Bernoulli sampler delivered one sample per grid cell, as in
the source. -/
theorem claim5_generation_invariants :
    (∀ ts hgt wd : Nat, ∀ mines : List Bool, ∀ s : MineSweeper,
      MineSweeper.new ts hgt wd mines = some s →
      mines.length = (hgt / ts) * (wd / ts) →
      s.mines = (s.tiles.filter Tile.mine).length ∧
      ∀ k, (hk : k < s.tiles.length) →
        (s.tiles.get ⟨k, hk⟩).neighbours =
          ((neighbours s.height s.width k).filter (probe Tile.mine s.tiles)).length) ∧
    (∀ s s' : MineSweeper, ∀ now : Nat, ∀ fresh : List Bool,
      interact s MSAction.reset now fresh = some s' →
      (s.state = GameState.lose ∨ s.state = GameState.win) →
      fresh.length = s.height * s.width →
      s'.mines = (s'.tiles.filter Tile.mine).length ∧
      ∀ k, (hk : k < s'.tiles.length) →
        (s'.tiles.get ⟨k, hk⟩).neighbours =
          ((neighbours s'.height s'.width k).filter (probe Tile.mine s'.tiles)).length) ∧
    (∀ s s' : MineSweeper, ∀ tile now : Nat, ∀ fresh : List Bool, ∀ a : MSAction,
      (a = MSAction.reveal tile ∨ a = MSAction.toggleFlag tile ∨
        a = MSAction.chord tile) →
      interact s a now fresh = some s' →
      s'.mines = s.mines ∧ s'.tiles.map tileSig = s.tiles.map tileSig) := by
  refine ⟨?_, ?_, ?_⟩
  · intro ts hgt wd mines s hnew hlen
    obtain ⟨tiles, hg, rfl⟩ := new_inv hnew
    exact ⟨rfl, fun k hk => generate_adj hg hlen k hk⟩
  · intro s s' now fresh h hterm hlen
    have hr : interact s MSAction.reset now fresh = resetAct s fresh := by
      rcases hterm with h1 | h1
      · exact interact_lose_reset h1 now fresh
      · exact interact_win_reset h1 now fresh
    rw [hr] at h
    obtain ⟨tiles, hg, rfl⟩ := resetAct_inv h
    exact ⟨rfl, fun k hk => generate_adj hg hlen k hk⟩
  · intro s s' tile now fresh a ha h
    exact interact_sig ha h

theorem claim5_witness :
    boardMenu.mines = (boardMenu.tiles.filter Tile.mine).length ∧
    (boardMenu.tiles.get ⟨1, by decide⟩).neighbours =
      ((neighbours boardMenu.height boardMenu.width 1).filter
        (probe Tile.mine boardMenu.tiles)).length ∧
    boardStartRevealed.mines = boardStart.mines ∧
    boardStartRevealed.tiles.map tileSig = boardStart.tiles.map tileSig := by
  have h1 := claim5_generation_invariants.1 1 2 2 [true, false, false, false]
    boardMenu (by decide) (by decide)
  have h3 := claim5_generation_invariants.2.2 boardStart boardStartRevealed 3 0 []
    (MSAction.reveal 3) (Or.inl rfl) (by decide)
  exact ⟨h1.1, h1.2 1 (by decide), h3.1, h3.2⟩

/-- C1 counterexample: on `boardChord` (one flagged mine, tiles 1 and 2 unrevealed,
tile 3 revealed), the chord on tile 3 reveals tiles 1 and 2, after which every
non-mine tile is revealed — yet the phase stays `running` and the stopwatch keeps
ticking: the chord branch of `interact` never performs the win check. -/
theorem claim1_counterexample :
    interact boardChord (MSAction.chord 3) 7 [] = some boardChordDone ∧
    allNonMineRevealed boardChordDone.tiles = true ∧
    boardChordDone.state = GameState.running ∧
    boardChordDone.state ≠ GameState.win ∧
    boardChordDone.timer = Timer.ticking 0 := by decide

/-- C1 (amended): the all-non-mines-revealed win check runs only in the reveal
branch: when a reveal marks a non-mine tile revealed and afterwards every non-mine
tile is revealed, the phase transitions to win and the stopwatch is stopped; a chord
never transitions the phase to win, no matter what it reveals. -/
theorem claim1_win_on_reveal_only :
    (∀ s : MineSweeper, ∀ tile now t0 : Nat, ∀ fresh : List Bool, ∀ t : Tile,
      s.state = GameState.running → s.tiles[tile]? = some t → t.revealed = false →
      t.flagged = false → t.mine = false → s.timer = Timer.ticking t0 →
      allNonMineRevealed (s.tiles.set tile { t with revealed := true }) = true →
      interact s (MSAction.reveal tile) now fresh =
        some { s with
               tiles := s.tiles.set tile { t with revealed := true }
               state := GameState.win
               timer := Timer.stopped (now - t0) }) ∧
    (∀ s s' : MineSweeper, ∀ tile now : Nat, ∀ fresh : List Bool,
      s.state = GameState.running →
      interact s (MSAction.chord tile) now fresh = some s' →
      s'.state ≠ GameState.win) := by
  constructor
  · intro s tile now t0 fresh t hrun ht hr hf hm htm hwin
    rw [interact_run_reveal hrun, revealAct_safe ht hr hf hm, hwin, if_pos rfl, htm,
      Timer.stop_ticking]
  · intro s s' tile now fresh hrun h
    rw [interact_run_chord hrun] at h
    cases ht : s.tiles[tile]? with
    | none =>
      rw [chordAct_oob (List.getElem?_eq_none_iff.mp ht) now] at h
      cases h
    | some t =>
      cases hr : t.revealed with
      | false =>
        rw [chordAct_noop ht (Or.inl hr)] at h
        cases h
        rw [hrun]
        intro hc
        cases hc
      | true =>
        cases hf : t.flagged with
        | true =>
          rw [chordAct_noop ht (Or.inr (Or.inl hf))] at h
          cases h
          rw [hrun]
          intro hc
          cases hc
        | false =>
          cases hm : t.mine with
          | true =>
            rw [chordAct_noop ht (Or.inr (Or.inr hm))] at h
            cases h
            rw [hrun]
            intro hc
            cases hc
          | false =>
            cases hcnt : countAt Tile.flagged s.tiles
                (neighbours s.height s.width tile) with
            | none =>
              rw [chordAct_panic ht hr hf hm hcnt] at h
              cases h
            | some c =>
              rcases Decidable.em (t.neighbours = c) with heq | hne
              · cases hloop : chordLoop now (neighbours s.height s.width tile)
                    s.tiles s.state s.timer with
                | none =>
                  rw [chordAct_stuck ht hr hf hm hcnt heq hloop] at h
                  cases h
                | some res =>
                  obtain ⟨tl, st, tm⟩ := res
                  rw [chordAct_go ht hr hf hm hcnt heq hloop] at h
                  cases h
                  show st ≠ GameState.win
                  rcases chordLoop_states now _ _ _ _ _ hloop with h1 | h1
                  · rw [show st = s.state from h1, hrun]
                    intro hc
                    cases hc
                  · rw [show st = GameState.lose from h1]
                    intro hc
                    cases hc
              · rw [chordAct_mismatch ht hr hf hm hcnt hne] at h
                cases h
                rw [hrun]
                intro hc
                cases hc

theorem claim1_witness :
    interact boardSolo (MSAction.reveal 0) 3 [] =
      some { boardSolo with
             tiles := boardSolo.tiles.set 0 ⟨false, 0, true, false⟩
             state := GameState.win
             timer := Timer.stopped 3 } ∧
    boardChordDone.state ≠ GameState.win := by
  constructor
  · exact claim1_win_on_reveal_only.1 boardSolo 0 3 0 [] ⟨false, 0, false, false⟩
      rfl rfl rfl rfl rfl rfl (by decide)
  · exact claim1_win_on_reveal_only.2 boardChord boardChordDone 3 7 [] rfl (by decide)

/-- C4: the chord on a revealed, unflagged, non-mine tile whose flagged-neighbour
count equals its adjacency count marks, in one non-cascading pass, every unflagged
non-mine neighbour revealed, leaves every flagged neighbour untouched, touches no
tile outside the neighbour list, transitions to lose and stops the stopwatch exactly
when some unflagged neighbour is a mine, and leaves phase and stopwatch alone
otherwise; a count mismatch, or an unrevealed, flagged or mine target tile, leaves
the whole state unchanged. The `hrange` hypothesis — every computed neighbour index
is in range — holds on all boards the program builds (its boards are square, where
the index arithmetic of `neighbours` is sound). -/
theorem claim4_chord (s : MineSweeper) (tile now : Nat) (fresh : List Bool) (t : Tile)
    (hrun : s.state = GameState.running) (ht : s.tiles[tile]? = some t)
    (hrange : ∀ i ∈ neighbours s.height s.width tile, i < s.tiles.length) :
    (t.revealed = true → t.flagged = false → t.mine = false →
      ((((neighbours s.height s.width tile).filter
            (probe Tile.flagged s.tiles)).length = t.neighbours →
        ∃ s', interact s (MSAction.chord tile) now fresh = some s' ∧
          (∀ j ∈ neighbours s.height s.width tile, ∀ u : Tile, s.tiles[j]? = some u →
            (u.flagged = false → u.mine = false →
              s'.tiles[j]? = some { u with revealed := true }) ∧
            (u.flagged = true → s'.tiles[j]? = some u)) ∧
          (∀ j : Nat, j ∉ neighbours s.height s.width tile →
            s'.tiles[j]? = s.tiles[j]?) ∧
          ((neighbours s.height s.width tile).any (probe mineTrap s.tiles) = true →
            s'.state = GameState.lose ∧ s'.timer = s.timer.stop now) ∧
          ((neighbours s.height s.width tile).any (probe mineTrap s.tiles) = false →
            s'.state = s.state ∧ s'.timer = s.timer)) ∧
      (((neighbours s.height s.width tile).filter
            (probe Tile.flagged s.tiles)).length ≠ t.neighbours →
        interact s (MSAction.chord tile) now fresh = some s))) ∧
    (t.revealed = false ∨ t.flagged = true ∨ t.mine = true →
      interact s (MSAction.chord tile) now fresh = some s) := by
  constructor
  · intro hr hf hm
    have hcnt : countAt Tile.flagged s.tiles (neighbours s.height s.width tile) =
        some (((neighbours s.height s.width tile).filter
          (probe Tile.flagged s.tiles)).length) := countAt_eq hrange
    constructor
    · intro hceq
      obtain ⟨tl, st, tm, hloop, hpt, hst, htm⟩ :=
        chordLoop_spec now (neighbours s.height s.width tile) s.tiles s.state s.timer
          hrange
      refine ⟨{ s with tiles := tl, state := st, timer := tm }, ?_, ?_, ?_, ?_, ?_⟩
      · rw [interact_run_chord hrun]
        exact chordAct_go ht hr hf hm hcnt hceq.symm hloop
      · intro j hj u hu
        constructor
        · intro huf hum
          show tl[j]? = _
          rw [hpt j, if_pos hj, hu]
          simp [revealIfSafe_of_safe huf hum]
        · intro huf
          show tl[j]? = _
          rw [hpt j, if_pos hj, hu]
          simp [revealIfSafe_of_flagged huf]
      · intro j hj
        show tl[j]? = _
        rw [hpt j, if_neg hj]
      · intro hany
        refine ⟨?_, ?_⟩
        · show st = _
          rw [hst, hany]
          simp
        · show tm = _
          rw [htm, hany]
          simp
      · intro hany
        refine ⟨?_, ?_⟩
        · show st = _
          rw [hst, hany]
          simp
        · show tm = _
          rw [htm, hany]
          simp
    · intro hne
      rw [interact_run_chord hrun]
      exact chordAct_mismatch ht hr hf hm hcnt fun hcontra => hne hcontra.symm
  · intro hcond
    rw [interact_run_chord hrun]
    exact chordAct_noop ht hcond

theorem claim4_witness :
    boardChord.state = GameState.running ∧
    boardChord.tiles[3]? = some ⟨false, 1, true, false⟩ ∧
    ((neighbours boardChord.height boardChord.width 3).filter
        (probe Tile.flagged boardChord.tiles)).length =
      (⟨false, 1, true, false⟩ : Tile).neighbours ∧
    interact boardChord (MSAction.chord 3) 7 [] = some boardChordDone ∧
    interact boardChord (MSAction.chord 0) 7 [] = some boardChord := by
  refine ⟨rfl, rfl, by decide, ?_, ?_⟩
  · obtain ⟨s', heq, hrest⟩ :=
      ((claim4_chord boardChord 3 7 [] ⟨false, 1, true, false⟩ rfl rfl
        (by decide)).1 rfl rfl rfl).1 (by decide)
    have hs' : s' = boardChordDone := by
      have h2 : interact boardChord (MSAction.chord 3) 7 [] = some boardChordDone := by
        decide
      exact Option.some_inj.mp (heq.symm.trans h2)
    rw [hs'] at heq
    exact heq
  · exact (claim4_chord boardChord 0 7 [] ⟨true, 0, false, true⟩ rfl rfl
      (by decide)).2 (Or.inr (Or.inl rfl))




